import Mathlib

/-!
Shallow embedding of the command-line record store in `main.go`: a JSON-file
backed collection of records with four operations (list/read, add, findById,
remove) behind a flag validator.  Pure functions below mirror the Go source
function by function; file state is passed explicitly.
-/

namespace MainGo

/-- Record mirrors the Go struct `Record {Id string; Email string; Age int8}`.
Age is modelled as an integer (its int8 range plays no role in the claims). -/
structure Record where
  Id : String
  Email : String
  Age : Int
deriving DecidableEq, Repr, Inhabited

/-- Arguments mirrors Go's `map[string]string`: looking up an absent key in a
Go map yields the zero value `""`, so the map is modelled as a total function
with `""` standing for an absent flag. -/
def Arguments : Type := String → String

def pOperation : String := "operation"
def pFileName : String := "fileName"
def pItem : String := "item"
def pId : String := "id"

def opAdd : String := "add"
def opList : String := "list"
def opFind : String := "findById"
def opRemove : String := "remove"

def operationsIndex : List String := [opAdd, opList, opFind, opRemove]

def requiredFlag : String := pOperation

/-- Per-operation required flags, mirroring the Go map
`additionalRequiredFlags`; lookup of an unknown operation yields the zero
value (empty list), as for a missing key in a Go map. -/
def additionalRequiredFlags : String → List String := fun op =>
  if op = opList then [pFileName]
  else if op = opAdd then [pFileName, pItem]
  else if op = opFind then [pFileName, pId]
  else if op = opRemove then [pFileName, pId]
  else []

/-- Mirrors Go `validateParamEntered`: returns an error for the first listed
parameter whose value is empty (`len(value) == 0`). -/
def validateParamEntered (args : Arguments) : List String → Except String Unit
  | [] => .ok ()
  | p :: rest =>
    if args p = "" then .error ("-" ++ p ++ " flag has to be specified")
    else validateParamEntered args rest

/-- Mirrors Go `validateOpAllowed`: `slices.Contains(operationsIndex, operation)`. -/
def validateOpAllowed (operation : String) : Except String Unit :=
  if operationsIndex.contains operation then .ok ()
  else .error ("Operation " ++ operation ++ " not allowed!")

/-- Mirrors Go `validateConsequently`: operation presence, then allowed-check,
then the operation's required flags, short-circuiting on the first error. -/
def validateConsequently (args : Arguments) (reqFlag : String)
    (params : String → List String) : Except String Unit :=
  match validateParamEntered args [reqFlag] with
  | .error e => .error e
  | .ok _ =>
    match validateOpAllowed (args reqFlag) with
    | .error e => .error e
    | .ok _ => validateParamEntered args (params (args reqFlag))

/-- JSON serialization of one record, as Go `json.Marshal` renders it for
field values without characters that need escaping (the only kind the claims
use): `\x7b"id":"…","email":"…","age":N\x7d`. -/
def recordToJson (r : Record) : String :=
  "\x7b\"id\":\"" ++ r.Id ++ "\",\"email\":\"" ++ r.Email ++ "\",\"age\":"
    ++ toString r.Age ++ "\x7d"

/-- JSON serialization of the collection, as Go `json.Marshal` renders a
non-nil `[]Record` (the empty slice marshals to `[]`). -/
def listToJson (rs : List Record) : String :=
  "[" ++ String.intercalate "," (rs.map recordToJson) ++ "]"

/-- File content as seen by add/find/remove after `ioutil.ReadAll`:
either empty bytes (`len(buf) == 0`) or a well-formed JSON array holding the
listed records.  `records []` models the non-empty content `[]`.  Parsing a
well-formed array and re-marshalling it round-trips, so a write of collection
`m` is modelled as `records m`. -/
inductive Content where
  | empty : Content
  | records (rs : List Record) : Content
deriving DecidableEq, Repr

/-- Outcome of one operation handler: normal return with the bytes written to
the writer (`none` for a nil buffer) and the resulting file content, a Go
error return, or a runtime panic (out-of-range slice bounds). -/
inductive OpOut where
  | ok (out : Option String) (file : Content) : OpOut
  | fail (msg : String) : OpOut
  | panicked : OpOut
deriving DecidableEq, Repr

/-- Mirrors Go `read` (the `list` handler): `os.OpenFile(..., O_CREATE, ...)`
creates an empty file when absent, then `ioutil.ReadAll` returns the raw
bytes, which are returned unmodified (the unmarshal is commented out in the
source).  Input is the raw file state (`none` = file absent), output is the
returned bytes and the file state afterwards. -/
def read (file : Option String) : String × Option String :=
  (file.getD "", some (file.getD ""))

/-- Mirrors the collection load in Go `add` (lines 146-155): empty bytes give
the fresh `[]Record{}`, non-empty bytes are unmarshalled. -/
def loadForAdd : Content → List Record
  | .empty => []
  | .records rs => rs

/-- Mirrors the duplicate scan in Go `add` (lines 166-170): the message for
the first record whose `Id` equals the new record's `Id`. -/
def addCheck : List Record → Record → Option String
  | [], _ => none
  | r :: rest, n =>
    if r.Id = n.Id then some ("Item with id " ++ r.Id ++ " already exists")
    else addCheck rest n

/-- Mirrors Go `add` after the `item` flag has been unmarshalled into record
`n`: on a duplicate Id the message is returned and the file is untouched;
otherwise the record is appended, the collection marshalled, written to the
file, and returned. -/
def add (file : Content) (n : Record) : OpOut :=
  let m := loadForAdd file
  match addCheck m n with
  | some msg => .ok (some msg) file
  | none =>
    let m2 := m ++ [n]
    .ok (some (listToJson m2)) (.records m2)

/-- Mirrors the scan in Go `find` (lines 206-211): the first record whose `Id`
equals the target is marshalled and returned; falling through returns nil. -/
def findScan (target : String) : List Record → Option String
  | [] => none
  | r :: rest =>
    if r.Id = target then some (recordToJson r) else findScan target rest

/-- Mirrors Go `find`: empty bytes are a hard error
(`"No data to search for a record"`); otherwise the collection is scanned and
the file is never written. -/
def find (file : Content) (target : String) : OpOut :=
  match file with
  | .empty => .fail "No data to search for a record"
  | .records m => .ok (findScan target m) file

/-- The in-place effect of Go `m = append(m[:ind], m[ind+1:]...)` on the
backing array of length `array.length` when the slice `m` currently has
length `curLen`: elements `ind+1 .. curLen-1` shift one slot left, the rest
of the backing array is untouched. -/
def sliceRemove (array : List Record) (curLen ind : Nat) : List Record :=
  array.take ind ++ ((array.take curLen).drop (ind + 1)) ++ array.drop (curLen - 1)

/-- One iteration of the Go `remove` loop at index `ind`: `rec` is read from
the backing array (shared with the mutated slice), and on a match the slice
append shrinks `m` — or panics when `ind+1` exceeds the current length
(`m[ind+1:]` with low bound past `len(m)`).  State is
(backing array, current slice length, foundId). -/
def removeAux (target : String) :
    List Nat → List Record → Nat → String → Option (List Record × Nat × String)
  | [], array, curLen, foundId => some (array, curLen, foundId)
  | ind :: rest, array, curLen, foundId =>
    if (array.getD ind default).Id = target then
      if ind + 1 ≤ curLen then
        removeAux target rest (sliceRemove array curLen ind) (curLen - 1)
          (array.getD ind default).Id
      else none
    else removeAux target rest array curLen foundId

/-- The whole Go `remove` loop `for ind, rec := range m`: `range m` fixes the
iteration count at the original length while the slice and backing array
mutate underneath. -/
def removeScan (target : String) (m : List Record) :
    Option (List Record × Nat × String) :=
  removeAux target (List.range m.length) m m.length ""

/-- Mirrors Go `remove`: empty bytes are a hard error; after the scan,
`foundId == ""` yields the not-found message with no write, otherwise the
shrunk slice is marshalled, written, and returned. -/
def remove (file : Content) (target : String) : OpOut :=
  match file with
  | .empty => .fail "No data to search for a record"
  | .records m =>
    match removeScan target m with
    | none => .panicked
    | some (array, curLen, foundId) =>
      if foundId = "" then
        .ok (some ("Item with id " ++ target ++ " not found")) (.records m)
      else
        let result := array.take curLen
        .ok (some (listToJson result)) (.records result)

/-! ### Helper lemmas -/

theorem getD_mem_of_lt {l : List Record} {i : Nat} (h : i < l.length) :
    l.getD i default ∈ l := by
  rw [List.getD_eq_getElem?_getD, List.getElem?_eq_getElem h, Option.getD_some]
  exact List.getElem_mem h

theorem getD_append_left {l₁ l₂ : List Record} {i : Nat} (h : i < l₁.length)
    (d : Record) : (l₁ ++ l₂).getD i d = l₁.getD i d := by
  rw [List.getD_eq_getElem?_getD, List.getD_eq_getElem?_getD,
    List.getElem?_append, if_pos h]

theorem getD_append_mid (l₁ l₂ : List Record) (x : Record) (d : Record) :
    (l₁ ++ x :: l₂).getD l₁.length d = x := by
  rw [List.getD_eq_getElem?_getD, List.getElem?_append, if_neg (lt_irrefl _),
    Nat.sub_self]
  simp

theorem removeAux_skip (target : String) (l₁ l₂ : List Nat) (array : List Record)
    (curLen : Nat) (foundId : String)
    (h : ∀ i ∈ l₁, (array.getD i default).Id ≠ target) :
    removeAux target (l₁ ++ l₂) array curLen foundId
      = removeAux target l₂ array curLen foundId := by
  revert h
  induction l₁ with
  | nil => intro _; rfl
  | cons a as ih =>
    intro h
    have ha : ¬ (array.getD a default).Id = target := h a (by simp)
    simp only [List.cons_append, removeAux, if_neg ha]
    exact ih fun i hi => h i (by simp [hi])

theorem removeScan_nomatch {m : List Record} {target : String}
    (h : ∀ r ∈ m, r.Id ≠ target) :
    removeScan target m = some (m, m.length, "") := by
  have step := removeAux_skip target (List.range m.length) [] m m.length ""
    (fun i hi => h _ (getD_mem_of_lt (List.mem_range.mp hi)))
  simpa [removeScan] using step

theorem addCheck_of_exists {m : List Record} {n : Record}
    (h : ∃ r ∈ m, r.Id = n.Id) :
    addCheck m n = some ("Item with id " ++ n.Id ++ " already exists") := by
  revert h
  induction m with
  | nil => intro h; exact absurd h (by simp)
  | cons a rest ih =>
    intro h
    by_cases ha : a.Id = n.Id
    · simp [addCheck, ha]
    · obtain ⟨r, hr, hid⟩ := h
      rcases List.mem_cons.mp hr with h1 | h1
      · exact absurd (h1 ▸ hid) ha
      · simp [addCheck, ha, ih ⟨r, h1, hid⟩]

theorem findScan_eq_some {m : List Record} {target : String} {r : Record}
    (h : m.find? (fun q => decide (q.Id = target)) = some r) :
    findScan target m = some (recordToJson r) := by
  revert h
  induction m with
  | nil => intro h; exact absurd h (by simp)
  | cons a rest ih =>
    intro h
    by_cases ha : a.Id = target
    · simp only [List.find?_cons, decide_eq_true ha] at h
      cases h
      simp [findScan, ha]
    · simp only [List.find?_cons, decide_eq_false ha] at h
      simp [findScan, ha, ih h]

theorem findScan_eq_none {m : List Record} {target : String}
    (h : ∀ r ∈ m, r.Id ≠ target) : findScan target m = none := by
  revert h
  induction m with
  | nil => intro _; rfl
  | cons a rest ih =>
    intro h
    simp [findScan, h a (by simp), ih fun r hr => h r (by simp [hr])]

theorem findScan_append_nomatch {l₁ : List Record} (l₂ : List Record)
    {target : String} (h : ∀ q ∈ l₁, q.Id ≠ target) :
    findScan target (l₁ ++ l₂) = findScan target l₂ := by
  revert h
  induction l₁ with
  | nil => intro _; rfl
  | cons a as ih =>
    intro h
    simp [findScan, h a (by simp), ih fun q hq => h q (by simp [hq])]

theorem range_append_range' (a b : Nat) :
    List.range (a + b) = List.range a ++ List.range' a b := by
  induction b with
  | zero => simp
  | succ n ih =>
    rw [show a + (n + 1) = (a + n) + 1 by omega, List.range_succ, ih,
      List.range'_concat]
    simp [List.append_assoc]

theorem drop_append_cons (pre post : List Record) (x : Record) :
    (pre ++ x :: post).drop (pre.length + 1) = post := by
  rw [List.drop_append 1]
  rfl

theorem sliceRemove_split (pre post : List Record) (x : Record) :
    sliceRemove (pre ++ x :: post) (pre ++ x :: post).length pre.length
      = (pre ++ post) ++ (pre ++ x :: post).drop ((pre ++ x :: post).length - 1) := by
  unfold sliceRemove
  rw [List.take_length, List.take_left, drop_append_cons, List.append_assoc]

theorem removeScan_single (pre post : List Record) (x : Record) (target : String)
    (hpre : ∀ r ∈ pre, r.Id ≠ target) (hx : x.Id = target)
    (hpost : ∀ r ∈ post, r.Id ≠ target) :
    ∃ A : List Record,
      removeScan target (pre ++ x :: post)
        = some (A, pre.length + post.length, target) ∧
      A.take (pre.length + post.length) = pre ++ post := by
  have hN : (pre ++ x :: post).length = pre.length + 1 + post.length := by
    simp only [List.length_append, List.length_cons]
    omega
  have hrange : List.range (pre ++ x :: post).length
      = List.range pre.length
        ++ (pre.length :: List.range' (pre.length + 1) post.length) := by
    rw [hN, show pre.length + 1 + post.length = pre.length + (1 + post.length) by omega,
      range_append_range',
      show 1 + post.length = post.length + 1 by omega, List.range'_succ]
  have hA := sliceRemove_split pre post x
  have hdropsub : 0 < post.length →
      (pre ++ x :: post).drop ((pre ++ x :: post).length - 1) ⊆ post := by
    intro hpos r hr
    rw [show (pre ++ x :: post).length - 1 = pre.length + post.length by omega,
      List.drop_append post.length] at hr
    obtain ⟨n, hn⟩ : ∃ n, post.length = n + 1 := ⟨post.length - 1, by omega⟩
    rw [hn, List.drop_succ_cons] at hr
    exact List.drop_subset _ _ hr
  have hAlen : ((pre ++ post)
        ++ (pre ++ x :: post).drop ((pre ++ x :: post).length - 1)).length
      = pre.length + post.length + 1 := by
    simp only [List.length_append, List.length_drop, List.length_cons]
    omega
  have htail : ∀ i ∈ List.range' (pre.length + 1) post.length,
      (((pre ++ post)
          ++ (pre ++ x :: post).drop ((pre ++ x :: post).length - 1)).getD
            i default).Id ≠ target := by
    intro i hi
    obtain ⟨j, hj, hij⟩ := List.mem_range'.mp hi
    have hpos : 0 < post.length := by omega
    have hilt : i < ((pre ++ post)
        ++ (pre ++ x :: post).drop ((pre ++ x :: post).length - 1)).length := by
      rw [hAlen]
      omega
    have hmem := getD_mem_of_lt hilt
    rcases List.mem_append.mp hmem with hin | hin
    · rcases List.mem_append.mp hin with hin2 | hin2
      exacts [hpre _ hin2, hpost _ hin2]
    · exact hpost _ (hdropsub hpos hin)
  refine ⟨(pre ++ post)
    ++ (pre ++ x :: post).drop ((pre ++ x :: post).length - 1), ?_, ?_⟩
  · unfold removeScan
    rw [hrange,
      removeAux_skip target (List.range pre.length) _ _ _ _
        (fun i hi => by
          have hilt : i < pre.length := List.mem_range.mp hi
          rw [getD_append_left hilt]
          exact hpre _ (getD_mem_of_lt hilt))]
    simp only [removeAux, getD_append_mid]
    rw [if_pos hx, if_pos (show pre.length + 1 ≤ (pre ++ x :: post).length by omega),
      hA]
    have hskip2 := removeAux_skip target
      (List.range' (pre.length + 1) post.length) []
      ((pre ++ post) ++ (pre ++ x :: post).drop ((pre ++ x :: post).length - 1))
      ((pre ++ x :: post).length - 1) x.Id htail
    rw [List.append_nil] at hskip2
    rw [hskip2]
    simp only [removeAux]
    rw [hx, show (pre ++ x :: post).length - 1 = pre.length + post.length by omega]
  · rw [show pre.length + post.length = (pre ++ post).length by simp,
      List.take_left]

theorem countP_eq_one_split {m : List Record} {target : String}
    (h : m.countP (fun r => decide (r.Id = target)) = 1) :
    ∃ pre x post, m = pre ++ x :: post ∧ (∀ r ∈ pre, r.Id ≠ target)
      ∧ x.Id = target ∧ (∀ r ∈ post, r.Id ≠ target) := by
  revert h
  induction m with
  | nil => intro h; simp at h
  | cons a rest ih =>
    intro h
    rw [List.countP_cons] at h
    by_cases ha : a.Id = target
    · have h0 : rest.countP (fun r => decide (r.Id = target)) = 0 := by
        rw [if_pos (decide_eq_true ha)] at h
        omega
      refine ⟨[], a, rest, rfl, by simp, ha, fun r hr => ?_⟩
      have := List.countP_eq_zero.mp h0 r hr
      simpa using this
    · have h1 : rest.countP (fun r => decide (r.Id = target)) = 1 := by
        rw [if_neg (by simpa using ha)] at h
        omega
      obtain ⟨pre, x, post, hm, hp1, hp2, hp3⟩ := ih h1
      exact ⟨a :: pre, x, post, by simp [hm], fun r hr => by
        rcases List.mem_cons.mp hr with h2 | h2
        · exact h2 ▸ ha
        · exact hp1 r h2, hp2, hp3⟩

/-! ### Claim theorems -/

/-- C1 counterexample: removing id 7 from a collection holding two adjacent
records with id 7 leaves one of them behind — the in-place slice append
shifts the second match to an index the forward pass has already visited. -/
theorem C1_counterexample :
    remove (.records [Record.mk "1" "a" 1, Record.mk "7" "b" 2,
        Record.mk "7" "c" 3, Record.mk "4" "d" 4]) "7"
      = .ok (some "[\x7b\"id\":\"1\",\"email\":\"a\",\"age\":1\x7d,\x7b\"id\":\"7\",\"email\":\"c\",\"age\":3\x7d,\x7b\"id\":\"4\",\"email\":\"d\",\"age\":4\x7d]")
          (.records [Record.mk "1" "a" 1, Record.mk "7" "c" 3,
            Record.mk "4" "d" 4]) ∧
    ∃ r ∈ [Record.mk "1" "a" 1, Record.mk "7" "c" 3, Record.mk "4" "d" 4],
      r.Id = "7" :=
  ⟨by decide, by decide⟩

/-- C1 (amended): when the (nonempty, as validation guarantees) id flag
matches at most one record of the stored collection, remove leaves no record
with that identifier in the stored collection; with two or more matches the
single forward pass can skip a match adjacent to a removed one. -/
theorem C1_remove_at_most_one (m : List Record) (target : String)
    (hne : target ≠ "")
    (hle : m.countP (fun r => decide (r.Id = target)) ≤ 1) :
    ∃ (out : Option String) (res : List Record),
      remove (.records m) target = .ok out (.records res) ∧
      ∀ r ∈ res, r.Id ≠ target := by
  rcases Nat.le_one_iff_eq_zero_or_eq_one.mp hle with h0 | h1
  · have hnm : ∀ r ∈ m, r.Id ≠ target := by
      intro r hr
      have := List.countP_eq_zero.mp h0 r hr
      simpa using this
    refine ⟨some ("Item with id " ++ target ++ " not found"), m, ?_, hnm⟩
    simp [remove, removeScan_nomatch hnm]
  · obtain ⟨pre, x, post, rfl, hpre, hx, hpost⟩ := countP_eq_one_split h1
    obtain ⟨A, hscan, htake⟩ := removeScan_single pre post x target hpre hx hpost
    refine ⟨some (listToJson (pre ++ post)), pre ++ post, ?_, ?_⟩
    · simp [remove, hscan, hne, htake]
    · intro r hr
      rcases List.mem_append.mp hr with h | h
      exacts [hpre r h, hpost r h]

/-- C1 witness at a concrete single-match collection. -/
theorem C1_witness :
    ("7" ≠ "" ∧ ([Record.mk "1" "a" 1, Record.mk "7" "b" 2].countP
        (fun r => decide (r.Id = "7")) ≤ 1)) ∧
    ∃ (out : Option String) (res : List MainGo.Record),
      remove (.records [Record.mk "1" "a" 1, Record.mk "7" "b" 2]) "7"
        = .ok out (.records res) ∧ ∀ r ∈ res, r.Id ≠ "7" :=
  ⟨⟨by decide, by decide⟩,
    C1_remove_at_most_one _ _ (by decide) (by decide)⟩

/-- C5: for an identifier occurring exactly once in the stored collection
(and nonempty, as validation guarantees), remove yields a collection one
shorter with no record carrying that identifier, persisted to the file and
returned serialized. -/
theorem C5_remove_unique (m : List Record) (target : String)
    (hne : target ≠ "")
    (hone : m.countP (fun r => decide (r.Id = target)) = 1) :
    ∃ res : List Record,
      remove (.records m) target
        = .ok (some (listToJson res)) (.records res) ∧
      res.length + 1 = m.length ∧ ∀ r ∈ res, r.Id ≠ target := by
  obtain ⟨pre, x, post, rfl, hpre, hx, hpost⟩ := countP_eq_one_split hone
  obtain ⟨A, hscan, htake⟩ := removeScan_single pre post x target hpre hx hpost
  refine ⟨pre ++ post, ?_, by simp only [List.length_append, List.length_cons]; omega, ?_⟩
  · simp [remove, hscan, hne, htake]
  · intro r hr
    rcases List.mem_append.mp hr with h | h
    exacts [hpre r h, hpost r h]

/-- C5 witness at a concrete collection with a unique match. -/
theorem C5_witness :
    ("1" ≠ "" ∧ ([Record.mk "1" "a" 1, Record.mk "2" "b" 2].countP
        (fun r => decide (r.Id = "1")) = 1)) ∧
    ∃ res : List MainGo.Record,
      remove (.records [Record.mk "1" "a" 1, Record.mk "2" "b" 2]) "1"
        = .ok (some (listToJson res)) (.records res) ∧
      res.length + 1 = 2 ∧ ∀ r ∈ res, r.Id ≠ "1" :=
  ⟨⟨by decide, by decide⟩, C5_remove_unique _ _ (by decide) (by decide)⟩

/-- C2 counterexample: the claim says empty file content yields an empty
collection (no error) for add, find and remove alike, but `find` on empty
content returns the Go error `No data to search for a record`. -/
theorem C2_counterexample :
    find Content.empty "1" = .fail "No data to search for a record" := rfl

/-- C2 (amended): `add` treats empty file content exactly as the empty
collection, while `find` and `remove` fail on empty content with the error
`No data to search for a record`. -/
theorem C2_empty_content (n : Record) (id1 id2 : String) :
    add Content.empty n = add (.records []) n ∧
    find Content.empty id1 = .fail "No data to search for a record" ∧
    remove Content.empty id2 = .fail "No data to search for a record" :=
  ⟨rfl, rfl, rfl⟩

/-- C3: adding a record whose identifier already occurs in the stored
collection returns the literal message `Item with id <id> already exists`
with no error and leaves the file content unchanged. -/
theorem C3_add_duplicate (m : List Record) (n : Record)
    (h : ∃ r ∈ m, r.Id = n.Id) :
    add (.records m) n
      = .ok (some ("Item with id " ++ n.Id ++ " already exists")) (.records m) := by
  simp [add, loadForAdd, addCheck_of_exists h]

/-- C3 witness at a concrete duplicate add. -/
theorem C3_witness :
    (∃ r ∈ [Record.mk "1" "a" 1], r.Id = "1") ∧
    add (.records [Record.mk "1" "a" 1]) (Record.mk "1" "b" 2)
      = .ok (some "Item with id 1 already exists") (.records [Record.mk "1" "a" 1]) :=
  ⟨by decide, C3_add_duplicate _ _ (by decide)⟩

/-- C4: removing an identifier that occurs nowhere in the stored collection
returns the literal message `Item with id <id> not found` with no error and
leaves the file content unchanged. -/
theorem C4_remove_missing (m : List Record) (target : String)
    (h : ∀ r ∈ m, r.Id ≠ target) :
    remove (.records m) target
      = .ok (some ("Item with id " ++ target ++ " not found")) (.records m) := by
  simp [remove, removeScan_nomatch h]

/-- C4 witness at a concrete missing identifier. -/
theorem C4_witness :
    (∀ r ∈ [Record.mk "1" "a" 1], r.Id ≠ "2") ∧
    remove (.records [Record.mk "1" "a" 1]) "2"
      = .ok (some "Item with id 2 not found") (.records [Record.mk "1" "a" 1]) :=
  ⟨by decide, C4_remove_missing _ _ (by decide)⟩

/-- C6: find returns the first matching record serialized alone, returns
nil output and nil error when no record matches, and on the spec's example
collection behaves exactly as the spec's example states. -/
theorem C6_find_semantics :
    (∀ (m : List Record) (target : String) (r : Record),
        m.find? (fun q => decide (q.Id = target)) = some r →
        find (.records m) target = .ok (some (recordToJson r)) (.records m)) ∧
    (∀ (m : List Record) (target : String), m ≠ [] →
        (∀ r ∈ m, r.Id ≠ target) →
        find (.records m) target = .ok none (.records m)) ∧
    find (.records [Record.mk "1" "a@b.com" 30]) "1"
      = .ok (some "\x7b\"id\":\"1\",\"email\":\"a@b.com\",\"age\":30\x7d")
          (.records [Record.mk "1" "a@b.com" 30]) ∧
    find (.records [Record.mk "1" "a@b.com" 30]) "2"
      = .ok none (.records [Record.mk "1" "a@b.com" 30]) := by
  refine ⟨?_, ?_, by decide, by decide⟩
  · intro m target r h
    simp [find, findScan_eq_some h]
  · intro m target _ h
    simp [find, findScan_eq_none h]

/-- C6 witness at the spec's example input. -/
theorem C6_witness :
    ([Record.mk "1" "a@b.com" 30].find? (fun q => decide (q.Id = "1"))
        = some (Record.mk "1" "a@b.com" 30)) ∧
    find (.records [Record.mk "1" "a@b.com" 30]) "1"
      = .ok (some (recordToJson (Record.mk "1" "a@b.com" 30)))
          (.records [Record.mk "1" "a@b.com" 30]) :=
  ⟨by decide, C6_find_semantics.1 _ _ _ (by decide)⟩

/-- C8: the list operation is a raw pass-through read: any existing content
(well-formed or not) is returned byte-for-byte, and a previously nonexistent
file yields empty output, the file left present and empty. -/
theorem C8_read_passthrough (s : String) :
    read (some s) = (s, some s) ∧ read none = ("", some "") :=
  ⟨rfl, rfl⟩

/-- C9: adding a record to an empty collection and then finding by its
identifier returns that record, serialized unchanged. -/
theorem C9_add_then_find (A : Record) :
    add Content.empty A = .ok (some (listToJson [A])) (.records [A]) ∧
    find (.records [A]) A.Id = .ok (some (recordToJson A)) (.records [A]) := by
  refine ⟨rfl, ?_⟩
  simp [find, findScan]

/-- C10: when several records match the id flag, find returns the first
match in collection order, serialized alone. -/
theorem C10_find_first_match (pre post : List Record) (r : Record)
    (target : String) (hpre : ∀ q ∈ pre, q.Id ≠ target) (hr : r.Id = target)
    (_hmore : ∃ q ∈ post, q.Id = target) :
    find (.records (pre ++ r :: post)) target
      = .ok (some (recordToJson r)) (.records (pre ++ r :: post)) := by
  simp [find, findScan_append_nomatch _ hpre, findScan, hr]

/-- C10 witness at a concrete two-match collection. -/
theorem C10_witness :
    (∀ q ∈ [Record.mk "2" "a" 1], q.Id ≠ "1") ∧
    (Record.mk "1" "b" 2).Id = "1" ∧
    (∃ q ∈ [Record.mk "1" "c" 3], q.Id = "1") ∧
    find (.records ([Record.mk "2" "a" 1] ++ Record.mk "1" "b" 2 :: [Record.mk "1" "c" 3])) "1"
      = .ok (some (recordToJson (Record.mk "1" "b" 2)))
          (.records ([Record.mk "2" "a" 1] ++ Record.mk "1" "b" 2 :: [Record.mk "1" "c" 3])) :=
  ⟨by decide, by decide, by decide,
    C10_find_first_match _ _ _ _ (by decide) (by decide) (by decide)⟩

theorem validateParamEntered_ok_iff (args : Arguments) (ps : List String) :
    validateParamEntered args ps = .ok () ↔ ∀ p ∈ ps, args p ≠ "" := by
  induction ps with
  | nil => simp [validateParamEntered]
  | cons p rest ih =>
    by_cases hp : args p = ""
    · simp [validateParamEntered, hp]
    · simp [validateParamEntered, hp, ih]

theorem validateParamEntered_first (args : Arguments) (ps : List String)
    (p : String) (h : ps.find? (fun q => decide (args q = "")) = some p) :
    validateParamEntered args ps
      = .error ("-" ++ p ++ " flag has to be specified") := by
  revert h
  induction ps with
  | nil => intro h; exact absurd h (by simp)
  | cons q rest ih =>
    intro h
    by_cases hq : args q = ""
    · simp only [List.find?_cons, decide_eq_true hq] at h
      cases h
      simp [validateParamEntered, hq]
    · simp only [List.find?_cons, decide_eq_false hq] at h
      simp [validateParamEntered, hq, ih h]

theorem validateConsequently_eq (args : Arguments) :
    validateConsequently args requiredFlag additionalRequiredFlags
      = if args pOperation = "" then .error "-operation flag has to be specified"
        else if operationsIndex.contains (args pOperation) then
          validateParamEntered args (additionalRequiredFlags (args pOperation))
        else .error ("Operation " ++ args pOperation ++ " not allowed!") := by
  simp only [validateConsequently, requiredFlag, validateParamEntered]
  by_cases h1 : args pOperation = ""
  · simp only [if_pos h1]
    rfl
  · simp only [if_neg h1, validateOpAllowed]
    by_cases h2 : operationsIndex.contains (args pOperation)
    · simp only [if_pos h2]
    · simp only [if_neg h2]

theorem contains_iff_mem_ops (s : String) :
    operationsIndex.contains s = true ↔ s ∈ operationsIndex :=
  List.elem_iff

/-- C7: validation fails exactly when the operation flag is missing, the
operation is not an allowed one, or one of that operation's required flags
is missing; the three checks run in that order and short-circuit, the error
naming the earliest failure (for flags, the first missing one in the
operation's requirement list), and the requirement table is the one the
spec states. -/
theorem C7_validate_semantics :
    (∀ args : Arguments,
        validateConsequently args requiredFlag additionalRequiredFlags = .ok ()
          ↔ (args pOperation ≠ "" ∧ args pOperation ∈ operationsIndex ∧
              ∀ p ∈ additionalRequiredFlags (args pOperation), args p ≠ "")) ∧
    (∀ args : Arguments, args pOperation = "" →
        validateConsequently args requiredFlag additionalRequiredFlags
          = .error "-operation flag has to be specified") ∧
    (∀ args : Arguments, args pOperation ≠ "" →
        args pOperation ∉ operationsIndex →
        validateConsequently args requiredFlag additionalRequiredFlags
          = .error ("Operation " ++ args pOperation ++ " not allowed!")) ∧
    (∀ (args : Arguments) (p : String), args pOperation ≠ "" →
        args pOperation ∈ operationsIndex →
        (additionalRequiredFlags (args pOperation)).find?
            (fun q => decide (args q = "")) = some p →
        validateConsequently args requiredFlag additionalRequiredFlags
          = .error ("-" ++ p ++ " flag has to be specified")) ∧
    additionalRequiredFlags opList = [pFileName] ∧
    additionalRequiredFlags opAdd = [pFileName, pItem] ∧
    additionalRequiredFlags opFind = [pFileName, pId] ∧
    additionalRequiredFlags opRemove = [pFileName, pId] := by
  refine ⟨?_, ?_, ?_, ?_, by decide, by decide, by decide, by decide⟩
  · intro args
    rw [validateConsequently_eq]
    by_cases h1 : args pOperation = ""
    · simp [h1]
    · by_cases h2 : args pOperation ∈ operationsIndex
      · rw [if_neg h1, if_pos ((contains_iff_mem_ops _).mpr h2)]
        simp [h1, h2, validateParamEntered_ok_iff]
      · rw [if_neg h1,
          if_neg (fun hc => h2 ((contains_iff_mem_ops _).mp hc))]
        simp [h1, h2]
  · intro args h1
    rw [validateConsequently_eq, if_pos h1]
  · intro args h1 h2
    rw [validateConsequently_eq, if_neg h1,
      if_neg (fun hc => h2 ((contains_iff_mem_ops _).mp hc))]
  · intro args p h1 h2 hfind
    rw [validateConsequently_eq, if_neg h1,
      if_pos ((contains_iff_mem_ops _).mpr h2)]
    exact validateParamEntered_first args _ p hfind

/-- C7 witness: a remove invocation with the id flag missing fails with the
message naming the first missing required flag. -/
theorem C7_witness :
    ((fun s => if s = "operation" then "remove"
        else if s = "fileName" then "db.json" else "" : Arguments) pOperation ≠ "" ∧
      (fun s => if s = "operation" then "remove"
        else if s = "fileName" then "db.json" else "" : Arguments) pOperation
          ∈ operationsIndex ∧
      (additionalRequiredFlags ((fun s => if s = "operation" then "remove"
        else if s = "fileName" then "db.json" else "" : Arguments) pOperation)).find?
          (fun q => decide ((fun s => if s = "operation" then "remove"
            else if s = "fileName" then "db.json" else "" : Arguments) q = ""))
        = some pId) ∧
    validateConsequently (fun s => if s = "operation" then "remove"
        else if s = "fileName" then "db.json" else "")
      requiredFlag additionalRequiredFlags
      = .error ("-" ++ pId ++ " flag has to be specified") :=
  ⟨⟨by decide, by decide, by decide⟩,
    C7_validate_semantics.2.2.2.1 _ pId (by decide) (by decide) (by decide)⟩

end MainGo
